import Mathlib

/-!
# Verification of the Booking-Addon availability and reservation core

Shallow embedding of `src/backend/src/main.rs` (webby-creator/Booking-Addon).
Instants are modelled as `Int` seconds; wall-clock readings of the `time`
crate's `OffsetDateTime` are a pair of a wall reading (seconds since the epoch
of the civil reading, as written on the clock face) and a UTC offset in
seconds.  Calendar conversions follow the proleptic Gregorian calendar used by
the `time` crate.
-/

namespace Booking

/-- Days since 1970-01-01 of the civil date `(y, m, d)` in the proleptic
Gregorian calendar (the arithmetic used by `time::Date`). -/
def daysFromCivil (y m d : Int) : Int :=
  let y' : Int := if m ≤ 2 then y - 1 else y
  let era : Int := y'.ediv 400
  let yoe : Int := y' - era * 400
  let mp : Int := (m + 9).emod 12
  let doy : Int := (153 * mp + 2).ediv 5 + d - 1
  let doe : Int := yoe * 365 + yoe.ediv 4 - yoe.ediv 100 + doy
  era * 146097 + doe - 719468

/-- Civil date `(year, month, day)` of a count of days since 1970-01-01. -/
def civilFromDays (z : Int) : Int × Int × Int :=
  let z' : Int := z + 719468
  let era : Int := z'.ediv 146097
  let doe : Int := z' - era * 146097
  let yoe : Int := (doe - doe.ediv 1460 + doe.ediv 36524 - doe.ediv 146096).ediv 365
  let y : Int := yoe + era * 400
  let doy : Int := doe - (365 * yoe + yoe.ediv 4 - yoe.ediv 100)
  let mp : Int := (5 * doy + 2).ediv 153
  let d : Int := doy - (153 * mp + 2).ediv 5 + 1
  let m : Int := if mp < 10 then mp + 3 else mp - 9
  (if m ≤ 2 then y + 1 else y, m, d)

/-- Calendar month (1..12) of an instant given in seconds since the epoch
(`OffsetDateTime::month` of the reading). -/
def monthOfInstant (t : Int) : Int :=
  (civilFromDays (t.ediv 86400)).2.1

/-- Calendar day of month of an instant given in seconds since the epoch. -/
def dayOfInstant (t : Int) : Int :=
  (civilFromDays (t.ediv 86400)).2.2

/-- Calendar year of an instant given in seconds since the epoch. -/
def yearOfInstant (t : Int) : Int :=
  (civilFromDays (t.ediv 86400)).1

/-- Largest instant representable by the `time` crate at second precision:
9999-12-31 23:59:59 (`PrimitiveDateTime::MAX`, sub-second part dropped). -/
def MAXI : Int := 253402300799

/-- Smallest instant representable by the `time` crate:
-9999-01-01 00:00:00 (`PrimitiveDateTime::MIN`). -/
def MINI : Int := -377705116800

/-- `OffsetDateTime::saturating_add`: addition clamped to the representable
range. -/
def satAdd (p f : Int) : Int :=
  max (min (p + f) MAXI) MINI

theorem maxi_eq : MAXI = daysFromCivil 9999 12 31 * 86400 + 86399 := by decide

theorem mini_eq : MINI = daysFromCivil (-9999) 1 1 * 86400 := by decide

/-- `time::util::is_leap_year`. -/
def isLeapYear (y : Int) : Bool :=
  (y.emod 4 = 0 && y.emod 100 ≠ 0) || y.emod 400 = 0

/-- `time::util::days_in_year_month`. -/
def daysInMonth (y m : Int) : Int :=
  if m = 2 then (if isLeapYear y then 29 else 28)
  else if m = 4 ∨ m = 6 ∨ m = 9 ∨ m = 11 then 30
  else 31

/-- `Date::from_calendar_date(year, Month::try_from(month)?, day)?.midnight()`:
validates the calendar date and yields its day count since the epoch.
`Month::try_from` rejects months outside 1..=12 and `from_calendar_date`
rejects out-of-range years and days. -/
def mkDateDays (y m d : Int) : Option Int :=
  if 1 ≤ m ∧ m ≤ 12 ∧ 1 ≤ d ∧ d ≤ daysInMonth y m ∧ -9999 ≤ y ∧ y ≤ 9999 then
    some (daysFromCivil y m d)
  else
    none

/-! ## Text parsing and formatting

The source reads wall-clock fields as text and re-parses them with fixed
`time` format descriptions; booking commits format dates back to text.  These
are modelled character by character. -/

/-- Value of one decimal digit character, failing on a non-digit
(format description components parse fixed-width zero-padded numbers). -/
def digitVal (c : Char) : Option Int :=
  if c.isDigit then some ((c.toNat - 48 : Nat) : Int) else none

/-- Two-digit zero-padded number. -/
def twoDigits (a b : Char) : Option Int := do
  let x ← digitVal a
  let y ← digitVal b
  some (x * 10 + y)

/-- Four-digit zero-padded number. -/
def fourDigits (a b c d : Char) : Option Int := do
  let x ← twoDigits a b
  let y ← twoDigits c d
  some (x * 100 + y)

/-- `Time::parse(s, format_description!("[hour]:[minute]:[second]"))`:
a strict `HH:MM:SS` wall-clock time, yielding seconds since midnight. -/
def parseHMS (s : String) : Option Int :=
  match s.data with
  | [h1, h2, ':', m1, m2, ':', s1, s2] => do
    let h ← twoDigits h1 h2
    let m ← twoDigits m1 m2
    let sec ← twoDigits s1 s2
    if h ≤ 23 ∧ m ≤ 59 ∧ sec ≤ 59 then some (h * 3600 + m * 60 + sec) else none
  | _ => none

/-- `Date::parse(s, format_description!("[year]-[month]-[day]"))`:
a strict `YYYY-MM-DD` calendar date, validated like `from_calendar_date`. -/
def parseDate (s : String) : Option (Int × Int × Int) :=
  match s.data with
  | [y1, y2, y3, y4, '-', m1, m2, '-', d1, d2] => do
    let y ← fourDigits y1 y2 y3 y4
    let m ← twoDigits m1 m2
    let d ← twoDigits d1 d2
    if 1 ≤ m ∧ m ≤ 12 ∧ 1 ≤ d ∧ d ≤ daysInMonth y m then some (y, m, d) else none
  | _ => none

/-- Splits a leading run of decimal digits (the variable-width `[subsecond]`
component). -/
def takeDigits : List Char → List Char × List Char
  | [] => ([], [])
  | c :: rest =>
    if c.isDigit then
      let (ds, r) := takeDigits rest
      (c :: ds, r)
    else
      ([], c :: rest)

/-- `OffsetDateTime::parse` with the format
`[year]-[month]-[day] [hour]:[minute]:[second].[subsecond]
[offset_hour sign:mandatory]:[offset_minute]:[offset_second]` used on stored
`bookDate` values, followed by `replace_offset(local_offset)`.
`replace_offset` keeps the wall-clock reading and discards the parsed offset,
so only the wall reading (seconds since the epoch of the civil reading) is
returned; the sub-second digits are validated but dropped (every `bookDate`
this program writes has a zero sub-second part). -/
def parseBookDate (s : String) : Option Int :=
  match s.data with
  | y1 :: y2 :: y3 :: y4 :: '-' :: m1 :: m2 :: '-' :: d1 :: d2 :: ' ' ::
      h1 :: h2 :: ':' :: mi1 :: mi2 :: ':' :: s1 :: s2 :: '.' :: rest => do
    let y ← fourDigits y1 y2 y3 y4
    let m ← twoDigits m1 m2
    let d ← twoDigits d1 d2
    let h ← twoDigits h1 h2
    let mi ← twoDigits mi1 mi2
    let sec ← twoDigits s1 s2
    let (subs, rest') := takeDigits rest
    match rest' with
    | ' ' :: sg :: o1 :: o2 :: ':' :: p1 :: p2 :: ':' :: q1 :: q2 :: [] => do
      let oh ← twoDigits o1 o2
      let om ← twoDigits p1 p2
      let os ← twoDigits q1 q2
      if (sg = '+' ∨ sg = '-') ∧ 1 ≤ subs.length ∧ subs.length ≤ 9 ∧
          (∀ c ∈ subs, c.isDigit) ∧
          1 ≤ m ∧ m ≤ 12 ∧ 1 ≤ d ∧ d ≤ daysInMonth y m ∧
          h ≤ 23 ∧ mi ≤ 59 ∧ sec ≤ 59 ∧ oh ≤ 25 ∧ om ≤ 59 ∧ os ≤ 59 then
        some (daysFromCivil y m d * 86400 + h * 3600 + mi * 60 + sec)
      else
        none
    | _ => none
  | _ => none

/-- `str::replace(".0", "")`: removes every (left-to-right, non-overlapping)
occurrence of the two-character pattern `.0`. -/
def removeDot0 : List Char → List Char
  | [] => []
  | '.' :: '0' :: r2 => removeDot0 r2
  | c :: rest => c :: removeDot0 rest

/-- `str::replace(".0", "")` on a `String`. -/
def stripDot0 (s : String) : String :=
  ⟨removeDot0 s.data⟩

/-- Byte-wise (here: code-point-wise, all text involved is ASCII) lexicographic
order on character lists, as Rust compares `String`s and as the claims' model
of the external store compares text filter values. -/
def lexLe : List Char → List Char → Bool
  | [], _ => true
  | _ :: _, [] => false
  | x :: xs, y :: ys =>
    if x.toNat < y.toNat then true
    else if y.toNat < x.toNat then false
    else lexLe xs ys

/-- Lexicographic text comparison on strings. -/
def textLe (a b : String) : Bool :=
  lexLe a.data b.data

/-- Rust `format!("{n:02}")` for a nonnegative number. -/
def pad2 (n : Int) : String :=
  if n < 10 then "0" ++ toString n else toString n

/-- `Display` of `time::Time` with a zero sub-second part: the hour is not
zero-padded and the fractional part prints as `.0`
(`"{}:{:02}:{:02}.{}"`).  Input is seconds since midnight. -/
def fmtTimeDisplay (t : Int) : String :=
  toString (t.ediv 3600) ++ ":" ++ pad2 ((t.ediv 60).emod 60) ++ ":" ++
    pad2 (t.emod 60) ++ ".0"

/-- The `bookDate` text written by a commit:
`format!("{year}-{month:02}-{day:02}T{time}")` where `{time}` uses the
`Display` of `time::Time`. -/
def bookDateText (y mo d t : Int) : String :=
  toString y ++ "-" ++ pad2 mo ++ "-" ++ pad2 d ++ "T" ++ fmtTimeDisplay t

/-- Lower bound of the bookings query window:
`format!("{year}-{month:02}-{day:02} 00:00:00.0 +00:00:00")`. -/
def windowLow (y mo d : Int) : String :=
  toString y ++ "-" ++ pad2 mo ++ "-" ++ pad2 d ++ " 00:00:00.0 +00:00:00"

/-- Upper bound of the bookings query window:
`format!("{year}-{month:02}-{day:02} 23:59:59.0 +00:00:00")`. -/
def windowHigh (y mo d : Int) : String :=
  toString y ++ "-" ++ pad2 mo ++ "-" ++ pad2 d ++ " 23:59:59.0 +00:00:00"

/-- Modelled from the spec: the external store's `queryRows` applies
`greaterOrEqual`/`lessOrEqual` filters over the `bookDate` field by textual
comparison; a row is in the UTC day window iff its `bookDate` text lies
between the two bounds.  (The store itself is outside `src/`.) -/
def inDayWindow (y mo d : Int) (bookDate : String) : Bool :=
  textLe (windowLow y mo d) bookDate && textLe bookDate (windowHigh y mo d)

/-! ## Data model

The CMS rows the handlers fetch are modelled structurally: each Lean field is
the value of the corresponding `fields.get(...)` text/number extraction on a
well-formed row (`id`, `service`, `duration`, `break`, `schedule`, `staff`,
`timeZone`, `start`, `end`, `startDay`, `recurrenceRule`, `bookDate`). -/

/-- `OffsetDateTime`: wall reading in seconds since the epoch of the civil
reading, plus a UTC offset in seconds.  The absolute instant is
`wall - offset`. -/
structure ODT where
  wall : Int
  offset : Int
deriving DecidableEq, Repr

/-- The absolute instant (true UTC timestamp) an `OffsetDateTime` denotes;
`PartialOrd`/`PartialEq` on `OffsetDateTime` compare this. -/
def ODT.instant (t : ODT) : Int :=
  t.wall - t.offset

/-- `OffsetDateTime::time()`: the wall-clock time of day. -/
def ODT.timeOfDay (t : ODT) : Int :=
  t.wall.emod 86400

/-- `OffsetDateTime::replace_offset`: keeps the wall reading, changes the
offset (and hence the absolute instant). -/
def ODT.replaceOffset (t : ODT) (o : Int) : ODT :=
  ⟨t.wall, o⟩

/-- `OffsetDateTime::to_offset`: keeps the absolute instant, changes the
offset (and hence the wall reading). -/
def ODT.toOffset (t : ODT) (o : Int) : ODT :=
  ⟨t.instant + o, o⟩

/-- A `schedule` collection row (fields read by the handlers). -/
structure ScheduleRow where
  id : String
  service : String
  /-- `duration` field, minutes (`try_as_number()?.convert_i64()`). -/
  duration : Int
  /-- `break` field, minutes (`try_as_number()?.convert_f64() as i64`). -/
  breakMin : Int
deriving DecidableEq, Repr

/-- The `recurrenceRule` object deserialized from a staff-schedule row. -/
structure RecurrenceRule where
  days : List String
  frequency : String
  interval : Nat
deriving DecidableEq, Repr

/-- A `staffSchedule` collection row (fields read by the handlers).  `start`,
`end` and `startDay` are kept as the stored text, as the source re-parses them;
the `end` field is named `endT` because `end` is reserved in Lean. -/
structure StaffScheduleRow where
  id : String
  schedule : String
  staff : String
  timeZone : String
  start : String
  endT : String
  startDay : String
  recurrenceRule : RecurrenceRule
deriving DecidableEq, Repr

/-- A `bookings` collection row (only `bookDate` is read back). -/
structure BookingRow where
  bookDate : String
deriving DecidableEq, Repr

/-- Modelled from the spec: `find_offset_by_id` of the external
`webby_global_common::tz` crate resolves an IANA time-zone identifier to a
fixed UTC offset and fails on unknown identifiers (DST is a stated non-goal).
Only the identifiers exercised here are populated; `America/Los_Angeles`
resolves to PST, -08:00. -/
def find_offset_by_id (s : String) : Option Int :=
  if s = "UTC" then some 0
  else if s = "America/Los_Angeles" then some (-28800)
  else none

/-- `frequency_str_to_duration`, in seconds (`Duration::days(1)`,
`Duration::weeks(1)`, `Duration::weeks(4)`, `Duration::weeks(52)`); unknown
frequency strings are an error. -/
def frequency_str_to_duration (frequency : String) : Option Int :=
  if frequency = "DAILY" then some 86400
  else if frequency = "WEEKLY" then some 604800
  else if frequency = "MONTHLY" then some (4 * 604800)
  else if frequency = "YEARLY" then some (52 * 604800)
  else none

/-! ## Slot Generator (`gather_available_hours`) -/

/-- The identity fields copied into every emitted slot. -/
structure SlotIds where
  serviceId : String
  scheduleId : String
  staffId : String
  staffScheduleId : String
deriving DecidableEq, Repr

/-- `FoundHour`: one emitted slot.  `start`/`endDT` are the cursor and
cursor+duration wall readings with the offset *replaced* by UTC
(`replace_offset(UtcOffset::UTC)`), exactly as the source builds them; the
source field `end` is named `endDT`. -/
structure FoundHour where
  start : ODT
  endDT : ODT
  isBooked : Bool
  serviceId : String
  scheduleId : String
  staffId : String
  staffScheduleId : String
deriving DecidableEq, Repr

/-- The loop guard `current_time_pos.time() + duration + break_duration
<= end_time`: `Time + Duration` wraps around midnight. -/
def hoursCond (durS brkS endS c : Int) : Bool :=
  (c.emod 86400 + durS + brkS).emod 86400 ≤ endS

/-- One emitted slot at cursor wall reading `c` (the cursor's offset is the
local offset; the emitted instants replace it with UTC, keeping the wall
reading).  A slot is booked iff some booked wall reading lies in
`[c, c + durS]`, both endpoints included — the `OffsetDateTime` comparisons in
the source reduce to wall-reading comparisons because both sides carry the
same (local) offset. -/
def mkFoundHour (booked : List Int) (durS : Int) (ids : SlotIds) (c : Int) :
    FoundHour :=
  { start := ⟨c, 0⟩
    endDT := ⟨c + durS, 0⟩
    isBooked := booked.any fun b => decide (c ≤ b) && decide (b ≤ c + durS)
    serviceId := ids.serviceId
    scheduleId := ids.scheduleId
    staffId := ids.staffId
    staffScheduleId := ids.staffScheduleId }

/-- The slot-emission loop of `gather_available_hours`, with explicit fuel
(the Rust loop has no bound of its own; `none` means the fuel ran out before
the guard failed). -/
def hoursLoop (booked : List Int) (durS brkS endS : Int) (ids : SlotIds) :
    Nat → Int → Option (List FoundHour)
  | 0, c => if hoursCond durS brkS endS c then none else some []
  | fuel + 1, c =>
    if hoursCond durS brkS endS c then
      (hoursLoop booked durS brkS endS ids fuel (c + durS + brkS)).map
        (mkFoundHour booked durS ids c :: ·)
    else
      some []

/-- `gather_available_hours`: resolves the staff schedule's time zone, parses
the booked instants (keeping their wall readings, see `parseBookDate`), reads
the duration and break minutes from the schedule row, parses the working
window `start`/`end` times, and walks the window.  `listDateDays` is the day
count of `list_date` (already validated by the caller); failures of any of the
fallible steps (unresolvable zone, unparsable text — panics or `?` in the
source) give `none`. -/
def gather_available_hours (fuel : Nat) (listDateDays : Int)
    (serviceId : String) (schedule : ScheduleRow)
    (staff_schedule : StaffScheduleRow) (bookings : List BookingRow) :
    Option (List FoundHour) := do
  let _localOffset ← find_offset_by_id staff_schedule.timeZone
  let booked ← bookings.mapM fun b => parseBookDate b.bookDate
  let durS := schedule.duration * 60
  let brkS := schedule.breakMin * 60
  let startS ← parseHMS (stripDot0 staff_schedule.start)
  let endS ← parseHMS (stripDot0 staff_schedule.endT)
  let ids : SlotIds :=
    { serviceId
      scheduleId := schedule.id
      staffId := staff_schedule.staff
      staffScheduleId := staff_schedule.id }
  hoursLoop booked durS brkS endS ids fuel (listDateDays * 86400 + startS)

/-! ## Recurrence Expander (`gather_available_days`) -/

/-- The bounded forward walk of `gather_available_days`: starting from the
anchor (exclusive — the step is added before each membership check), add the
frequency step with saturating addition; collect instants whose (UTC) calendar
month equals the lookup instant's month, stop at 5 collected, stop once past
the lookup instant, skip while nothing collected yet, else stop.  Explicit
fuel; `none` means the fuel ran out. -/
def daysWalk (lookup freq : Int) : Nat → Int → List Int → Option (List Int)
  | 0, _, _ => none
  | fuel + 1, pos, found =>
    let pos' := satAdd pos freq
    if monthOfInstant pos' = monthOfInstant lookup then
      if (found ++ [pos']).length = 5 then some (found ++ [pos'])
      else daysWalk lookup freq fuel pos' (found ++ [pos'])
    else if lookup < pos' then some found
    else if found.isEmpty then daysWalk lookup freq fuel pos' found
    else some found

/-- The per-item body of `gather_available_days`: parse `startDay`, `start`
and the recurrence rule, resolve the time zone, convert the anchor's local
wall reading to UTC (`assume_offset(local).to_offset(UTC)`: absolute instant
`wall - offset`), and walk from it toward the lookup month.  `lookupDays` is
the day count of the queried month's first day.  The found occurrences are
returned as UTC instants (the JSON assembly of the source is plumbing). -/
def gather_available_days (fuel : Nat) (lookupDays : Int)
    (item : StaffScheduleRow) : Option (List Int) := do
  let (y, m, d) ← parseDate item.startDay
  let startS ← parseHMS (stripDot0 item.start)
  let _endS ← parseHMS (stripDot0 item.endT)
  let localOffset ← find_offset_by_id item.timeZone
  let freq ← frequency_str_to_duration item.recurrenceRule.frequency
  let currDt := daysFromCivil y m d * 86400 + startS - localOffset
  daysWalk (lookupDays * 86400) freq fuel currDt []

/-! ## Reservation Coordinator (`PROCESSING_FORMS` and the three handlers)

`PROCESSING_FORMS` is a single mutex-guarded
`HashMap<(String, u8, u8, usize), String>`.  Each handler holds the mutex for
its whole critical section, so concurrent calls are equivalent to the
sequential interleavings modelled here.  The map is modelled as an association
list with the `HashMap` insert/remove semantics. -/

/-- The lock-table key `(schedule_id, day, month, year)`. -/
abbrev LockKey := String × Int × Int × Int

/-- The lock table. -/
abbrev LockTable := List (LockKey × String)

/-- `HashMap::get`-style lookup. -/
def ltLookup (t : LockTable) (k : LockKey) : Option String :=
  (t.find? fun e => e.1 == k).map (·.2)

/-- `HashMap::contains_key`. -/
def ltContains (t : LockTable) (k : LockKey) : Bool :=
  (ltLookup t k).isSome

/-- `HashMap::remove` (the returned value is read via `ltLookup`). -/
def ltRemove (t : LockTable) (k : LockKey) : LockTable :=
  t.filter fun e => !(e.1 == k)

/-- `HashMap::insert`. -/
def ltInsert (t : LockTable) (k : LockKey) (v : String) : LockTable :=
  (k, v) :: ltRemove t k

/-- The query parameters shared by the three form-process handlers
(`FormProcessQuery`); `time` stays text, parsed by each handler. -/
structure FormProcessQuery where
  clientKey : String
  staffScheduleId : String
  scheduleId : String
  serviceId : String
  staffId : String
  day : Int
  month : Int
  year : Int
  time : String
deriving DecidableEq, Repr

/-- The lock-table key built by each handler. -/
def keyOf (q : FormProcessQuery) : LockKey :=
  (q.scheduleId, q.day, q.month, q.year)

/-- The data a `begin` call reads from the external store: the schedule row
fetched by `schedule_id`, the staff-schedule row fetched by
`staff_schedule_id`, and the bookings rows returned by the day-window query. -/
structure BeginEnv where
  schedule : ScheduleRow
  staffSchedule : StaffScheduleRow
  bookings : List BookingRow
deriving DecidableEq, Repr

/-- The error classes a `begin` call can report (each an `eyre` message in the
source, in this order of checks). -/
inductive BeginError where
  | serviceMismatch
  | scheduleMismatch
  | staffMismatch
  | alreadyProcessing
  | invalidDate
  | gatherFailed
  | timeParseFailed
  | timeNotFound
  | timeBooked
deriving DecidableEq, Repr

/-- `post_form_process_before`: validates referential consistency, takes the
lock, rejects an in-flight key, re-derives the day's slots, requires the
requested wall-clock time to be the start time of a generated slot and that
slot to be free, then stores the client key.  Returns the lock table after the
call together with the error, if any; every error path leaves the table as it
was. -/
def post_form_process_before (env : BeginEnv) (proc : LockTable)
    (q : FormProcessQuery) (fuel : Nat) : LockTable × Option BeginError :=
  if env.schedule.service ≠ q.serviceId then (proc, some .serviceMismatch)
  else if env.staffSchedule.schedule ≠ q.scheduleId then
    (proc, some .scheduleMismatch)
  else if env.staffSchedule.staff ≠ q.staffId then (proc, some .staffMismatch)
  else if ltContains proc (keyOf q) then (proc, some .alreadyProcessing)
  else
    match mkDateDays q.year q.month q.day with
    | none => (proc, some .invalidDate)
    | some listDays =>
      match gather_available_hours fuel listDays env.schedule.service
          env.schedule env.staffSchedule env.bookings with
      | none => (proc, some .gatherFailed)
      | some hours =>
        match parseHMS q.time with
        | none => (proc, some .timeParseFailed)
        | some t =>
          match hours.find? fun v => v.start.timeOfDay == t with
          | none => (proc, some .timeNotFound)
          | some v =>
            if v.isBooked then (proc, some .timeBooked)
            else (ltInsert proc (keyOf q) q.clientKey, none)

/-- `post_form_process_error` (abort): unconditionally removes the key and
returns `Ok(())` — the handler has no failing path, so its result is just the
new table. -/
def post_form_process_error (proc : LockTable) (q : FormProcessQuery) :
    LockTable :=
  ltRemove proc (keyOf q)

/-- The error classes a `commit` call can report, in source order. -/
inductive CommitError where
  | processNotFound
  | clientKeyMismatch
  | timeParseFailed
  | invalidDate
deriving DecidableEq, Repr

/-- The booking row a successful commit writes via `import_data_row`. -/
structure BookingWrite where
  bookDate : String
  bookID : Int
  duration : Int
  service : String
  staffMember : String
  contactUuid : String
  schemaDataUuid : String
deriving DecidableEq, Repr

/-- `post_form_process_after` (commit): reads the duration from the schedule
row fetched by `schedule_id`, removes the lock entry — failing if none was
pending — then fails if the removed entry's stored client key differs from the
supplied one (note the entry stays removed), and otherwise writes the booking
row.  Returns the table after the call, the row written (if any) and the
error (if any). -/
def post_form_process_after (schedule : ScheduleRow) (proc : LockTable)
    (q : FormProcessQuery) (contactUuid schemaDataUuid : String) :
    LockTable × Option BookingWrite × Option CommitError :=
  let key := keyOf q
  let duration := schedule.duration
  match ltLookup proc key with
  | none => (proc, none, some .processNotFound)
  | some storedKey =>
    let proc' := ltRemove proc key
    if storedKey ≠ q.clientKey then (proc', none, some .clientKeyMismatch)
    else
      match parseHMS q.time with
      | none => (proc', none, some .timeParseFailed)
      | some t =>
        match mkDateDays q.year q.month q.day with
        | none => (proc', none, some .invalidDate)
        | some bookDays =>
          (proc',
            some
              { bookDate := bookDateText q.year q.month q.day t
                bookID := bookDays * 86400 + t
                duration := duration
                service := q.serviceId
                staffMember := q.staffId
                contactUuid := contactUuid
                schemaDataUuid := schemaDataUuid },
            none)

/-! ## Recurrence-walk lemmas -/

theorem satAdd_le_MAXI (p f : Int) : satAdd p f ≤ MAXI := by
  unfold satAdd MAXI MINI
  omega

theorem MINI_le_satAdd (p f : Int) : MINI ≤ satAdd p f := by
  unfold satAdd MAXI MINI
  omega

theorem le_satAdd (p f : Int) (hm : MINI ≤ p) (hp : p ≤ MAXI) (hf : 0 < f) :
    p ≤ satAdd p f := by
  unfold satAdd MAXI MINI at *
  omega

theorem satAdd_of_ne_MAXI (p f : Int) (hm : MINI ≤ p) (hf : 0 < f)
    (h : satAdd p f ≠ MAXI) : satAdd p f = p + f := by
  unfold satAdd MAXI MINI at *
  omega

theorem frequency_pos (s : String) (f : Int)
    (h : frequency_str_to_duration s = some f) : 0 < f := by
  unfold frequency_str_to_duration at h
  split_ifs at h <;> (cases h; norm_num)

theorem daysWalk_length (lookup freq : Int) :
    ∀ (fuel : Nat) (pos : Int) (found r : List Int), found.length < 5 →
      daysWalk lookup freq fuel pos found = some r → r.length ≤ 5 := by
  intro fuel
  induction fuel with
  | zero =>
    intro pos found r h hL
    simp [daysWalk] at hL
  | succ n ih =>
    intro pos found r h hL
    simp only [daysWalk] at hL
    split at hL
    · split at hL
      · rename_i hlen
        cases hL
        simp only [List.length_append, List.length_singleton] at hlen ⊢
        omega
      · rename_i hlen
        refine ih _ _ r ?_ hL
        simp only [List.length_append, List.length_singleton] at hlen ⊢
        omega
    · split at hL
      · cases hL
        omega
      · split at hL
        · exact ih _ _ r h hL
        · cases hL
          omega

theorem daysWalk_month (lookup freq : Int) :
    ∀ (fuel : Nat) (pos : Int) (found r : List Int),
      (∀ x ∈ found, monthOfInstant x = monthOfInstant lookup) →
      daysWalk lookup freq fuel pos found = some r →
      ∀ x ∈ r, monthOfInstant x = monthOfInstant lookup := by
  intro fuel
  induction fuel with
  | zero =>
    intro pos found r h hL
    simp [daysWalk] at hL
  | succ n ih =>
    intro pos found r h hL
    simp only [daysWalk] at hL
    split at hL
    · rename_i hmo
      have h2 : ∀ x ∈ found ++ [satAdd pos freq],
          monthOfInstant x = monthOfInstant lookup := by
        intro x hx
        rcases List.mem_append.mp hx with hx | hx
        · exact h x hx
        · rw [List.mem_singleton.mp hx]
          exact hmo
      split at hL
      · cases hL
        exact h2
      · exact ih _ _ r h2 hL
    · split at hL
      · cases hL
        exact h
      · split at hL
        · exact ih _ _ r h hL
        · cases hL
          exact h

theorem daysWalk_mem (lookup freq : Int) :
    ∀ (fuel : Nat) (pos : Int) (found r : List Int),
      daysWalk lookup freq fuel pos found = some r →
      ∀ x ∈ found, x ∈ r := by
  intro fuel
  induction fuel with
  | zero =>
    intro pos found r hL
    simp [daysWalk] at hL
  | succ n ih =>
    intro pos found r hL
    simp only [daysWalk] at hL
    split at hL
    · split at hL
      · cases hL
        intro x hx
        exact List.mem_append_left _ hx
      · intro x hx
        exact ih _ _ r hL x (List.mem_append_left _ hx)
    · split at hL
      · cases hL
        exact fun x hx => hx
      · split at hL
        · exact ih _ _ r hL
        · cases hL
          exact fun x hx => hx

theorem daysWalk_sorted (lookup freq : Int) (hf : 0 < freq) :
    ∀ (fuel : Nat) (pos : Int) (found r : List Int),
      MINI ≤ pos → pos ≤ MAXI →
      found.Pairwise (· < ·) → (∀ x ∈ found, x ≤ pos) →
      daysWalk lookup freq fuel pos found = some r → MAXI ∉ r →
      r.Pairwise (· < ·) := by
  intro fuel
  induction fuel with
  | zero =>
    intro pos found r hm hp hpw hb hL hmax
    simp [daysWalk] at hL
  | succ n ih =>
    intro pos found r hm hp hpw hb hL hmax
    simp only [daysWalk] at hL
    split at hL
    · have hmem : satAdd pos freq ∈ r := by
        split at hL
        · cases hL
          exact List.mem_append_right _ (List.mem_singleton_self _)
        · exact daysWalk_mem lookup freq n _ _ r hL _
            (List.mem_append_right _ (List.mem_singleton_self _))
      have hne : satAdd pos freq ≠ MAXI := fun he => hmax (he ▸ hmem)
      have heq : satAdd pos freq = pos + freq :=
        satAdd_of_ne_MAXI pos freq hm hf hne
      have hlt : ∀ x ∈ found, x < satAdd pos freq := by
        intro x hx
        have := hb x hx
        omega
      have hpw2 : (found ++ [satAdd pos freq]).Pairwise (· < ·) := by
        rw [List.pairwise_append]
        refine ⟨hpw, List.pairwise_singleton _ _, ?_⟩
        intro x hx y hy
        rw [List.mem_singleton.mp hy]
        exact hlt x hx
      have hb2 : ∀ x ∈ found ++ [satAdd pos freq], x ≤ satAdd pos freq := by
        intro x hx
        rcases List.mem_append.mp hx with hx | hx
        · exact le_of_lt (hlt x hx)
        · rw [List.mem_singleton.mp hx]
      split at hL
      · cases hL
        exact hpw2
      · exact ih _ _ r (MINI_le_satAdd _ _) (satAdd_le_MAXI _ _) hpw2 hb2 hL
          hmax
    · split at hL
      · cases hL
        exact hpw
      · split at hL
        · rename_i hempty
          refine ih _ _ r (MINI_le_satAdd _ _) (satAdd_le_MAXI _ _) hpw ?_ hL
            hmax
          intro x hx
          cases found with
          | nil => simp at hx
          | cons a as => simp at hempty
        · cases hL
          exact hpw

theorem daysWalk_total (lookup freq : Int) (hf : 0 < freq)
    (hlk : lookup < MAXI) :
    ∀ (fuel : Nat) (pos : Int) (found : List Int),
      MINI ≤ pos → pos ≤ MAXI → found.length < 5 →
      (lookup - pos).toNat + (5 - found.length) < fuel →
      (daysWalk lookup freq fuel pos found).isSome := by
  intro fuel
  induction fuel with
  | zero =>
    intro pos found hm hp hlen hfu
    omega
  | succ n ih =>
    intro pos found hm hp hlen hfu
    simp only [daysWalk]
    split
    · split
      · simp
      · rename_i hlen5
        have h1 : pos ≤ satAdd pos freq := le_satAdd pos freq hm hp hf
        apply ih
        · exact MINI_le_satAdd _ _
        · exact satAdd_le_MAXI _ _
        · simp only [List.length_append, List.length_singleton] at hlen5 ⊢
          omega
        · simp only [List.length_append, List.length_singleton]
          omega
    · split
      · simp
      · split
        · rename_i hmo hlook hempty
          have hple : satAdd pos freq ≤ lookup := le_of_not_lt hlook
          have hne : satAdd pos freq ≠ MAXI := by
            intro he
            rw [he] at hple
            omega
          have heq : satAdd pos freq = pos + freq :=
            satAdd_of_ne_MAXI pos freq hm hf hne
          apply ih
          · exact MINI_le_satAdd _ _
          · exact satAdd_le_MAXI _ _
          · exact hlen
          · rw [heq] at hple ⊢
            omega
        · simp

/-! ## Concrete fixtures

A well-formed schedule/staff-schedule pair following the spec's concrete
scenario (working window `10:00–18:00`, duration 45, break 15, weekly
recurrence anchored 2024-12-02, a Monday). -/

/-- Fixture schedule row. -/
def wSchedule : ScheduleRow :=
  { id := "sch1", service := "svc1", duration := 45, breakMin := 15 }

/-- Fixture staff-schedule row in the `UTC` zone. -/
def wStaffUTC : StaffScheduleRow :=
  { id := "st1", schedule := "sch1", staff := "stf1", timeZone := "UTC"
    start := "10:00:00", endT := "18:00:00", startDay := "2024-12-02"
    recurrenceRule := { days := [], frequency := "WEEKLY", interval := 1 } }

/-- Fixture staff-schedule row in `America/Los_Angeles`. -/
def wStaffLA : StaffScheduleRow :=
  { wStaffUTC with timeZone := "America/Los_Angeles" }

/-- Fixture staff-schedule row anchored 2024-11-23 23:00 local, Los Angeles:
its weekly occurrences land in UTC December while still in local November. -/
def wStaffNov : StaffScheduleRow :=
  { wStaffLA with startDay := "2024-11-23", start := "23:00:00" }

/-- Fixture `begin`/`commit` environment (no existing bookings). -/
def wEnv : BeginEnv :=
  { schedule := wSchedule, staffSchedule := wStaffUTC, bookings := [] }

/-- Fixture query targeting the free 10:00 slot of 2024-12-02. -/
def wQuery : FormProcessQuery :=
  { clientKey := "ck", staffScheduleId := "st1", scheduleId := "sch1"
    serviceId := "svc1", staffId := "stf1", day := 2, month := 12
    year := 2024, time := "10:00:00" }

/-! ## Lock-table lemmas -/

theorem ltLookup_ltRemove (t : LockTable) (k : LockKey) :
    ltLookup (ltRemove t k) k = none := by
  induction t with
  | nil => rfl
  | cons e t ih =>
    by_cases h : e.1 = k
    · have h2 : ltRemove (e :: t) k = ltRemove t k := by
        simp [ltRemove, List.filter_cons, h]
      rw [h2]; exact ih
    · have h2 : ltRemove (e :: t) k = e :: ltRemove t k := by
        simp [ltRemove, List.filter_cons, h]
      rw [h2]
      have h3 : ltLookup (e :: ltRemove t k) k = ltLookup (ltRemove t k) k := by
        have hb : (e.1 == k) = false := by
          exact beq_false_of_ne h
        simp [ltLookup, List.find?, hb]
      rw [h3]; exact ih

theorem ltRemove_ltRemove (t : LockTable) (k : LockKey) :
    ltRemove (ltRemove t k) k = ltRemove t k := by
  induction t with
  | nil => rfl
  | cons e t ih =>
    by_cases h : e.1 = k
    · have h2 : ltRemove (e :: t) k = ltRemove t k := by
        simp [ltRemove, List.filter_cons, h]
      rw [h2, ih]
    · have h2 : ltRemove (e :: t) k = e :: ltRemove t k := by
        simp [ltRemove, List.filter_cons, h]
      rw [h2]
      have h3 : ltRemove (e :: ltRemove t k) k = e :: ltRemove (ltRemove t k) k := by
        simp [ltRemove, List.filter_cons, h]
      rw [h3, ih]

/-! ## Slot-loop characterization

The emission loop advances the cursor by `durS + brkS` each step; a completed
run (`some L`) emits exactly the slots at `c + (durS + brkS) * k` for
`k < L.length`, with the guard true at each emitted cursor and false at the
cursor after the last slot. -/

theorem hoursLoop_get (booked : List Int) (durS brkS endS : Int)
    (ids : SlotIds) :
    ∀ (fuel : Nat) (c : Int) (L : List FoundHour),
      hoursLoop booked durS brkS endS ids fuel c = some L →
      ∀ (k : Nat) (hk : k < L.length),
        L.get ⟨k, hk⟩ =
          mkFoundHour booked durS ids (c + (durS + brkS) * (k : Int)) := by
  intro fuel
  induction fuel with
  | zero =>
    intro c L hL k hk
    unfold hoursLoop at hL
    split at hL
    · exact absurd hL (by simp)
    · cases hL
      simp at hk
  | succ n ih =>
    intro c L hL k hk
    unfold hoursLoop at hL
    split at hL
    · cases hmap : hoursLoop booked durS brkS endS ids n (c + durS + brkS) with
      | none => rw [hmap] at hL; simp at hL
      | some L' =>
        rw [hmap] at hL
        simp only [Option.map_some'] at hL
        cases hL
        cases k with
        | zero => simp
        | succ k' =>
          have hk' : k' < L'.length := by
            simpa using Nat.lt_of_succ_lt_succ hk
          have h := ih (c + durS + brkS) L' hmap k' hk'
          have hget : (mkFoundHour booked durS ids c :: L').get
              ⟨k' + 1, hk⟩ = L'.get ⟨k', hk'⟩ := rfl
          rw [hget, h]
          congr 1
          push_cast
          ring
    · cases hL
      simp at hk

theorem hoursLoop_cond_last (booked : List Int) (durS brkS endS : Int)
    (ids : SlotIds) :
    ∀ (fuel : Nat) (c : Int) (L : List FoundHour),
      hoursLoop booked durS brkS endS ids fuel c = some L →
      hoursCond durS brkS endS (c + (durS + brkS) * (L.length : Int)) =
        false := by
  intro fuel
  induction fuel with
  | zero =>
    intro c L hL
    unfold hoursLoop at hL
    split at hL
    · exact absurd hL (by simp)
    · rename_i hcond
      cases hL
      simpa using hcond
  | succ n ih =>
    intro c L hL
    unfold hoursLoop at hL
    split at hL
    · cases hmap : hoursLoop booked durS brkS endS ids n (c + durS + brkS) with
      | none => rw [hmap] at hL; simp at hL
      | some L' =>
        rw [hmap] at hL
        simp only [Option.map_some'] at hL
        cases hL
        have h := ih (c + durS + brkS) L' hmap
        have harith : c + durS + brkS + (durS + brkS) * (L'.length : Int) =
            c + (durS + brkS) * (((mkFoundHour booked durS ids c ::
              L').length : Nat) : Int) := by
          simp only [List.length_cons]
          push_cast
          ring
        rw [harith] at h
        exact h
    · rename_i hcond
      cases hL
      simpa using hcond

theorem hoursLoop_cond_emitted (booked : List Int) (durS brkS endS : Int)
    (ids : SlotIds) :
    ∀ (fuel : Nat) (c : Int) (L : List FoundHour),
      hoursLoop booked durS brkS endS ids fuel c = some L →
      ∀ (k : Nat), k < L.length →
        hoursCond durS brkS endS (c + (durS + brkS) * (k : Int)) = true := by
  intro fuel
  induction fuel with
  | zero =>
    intro c L hL k hk
    unfold hoursLoop at hL
    split at hL
    · exact absurd hL (by simp)
    · cases hL
      simp at hk
  | succ n ih =>
    intro c L hL k hk
    unfold hoursLoop at hL
    split at hL
    · rename_i hcond
      cases hmap : hoursLoop booked durS brkS endS ids n (c + durS + brkS) with
      | none => rw [hmap] at hL; simp at hL
      | some L' =>
        rw [hmap] at hL
        simp only [Option.map_some'] at hL
        cases hL
        cases k with
        | zero => simpa using hcond
        | succ k' =>
          have hk' : k' < L'.length := by
            simpa using Nat.lt_of_succ_lt_succ hk
          have h := ih (c + durS + brkS) L' hmap k' hk'
          have harith : c + durS + brkS + (durS + brkS) * (k' : Int) =
              c + (durS + brkS) * ((k' : Int) + 1) := by ring
          rw [harith] at h
          simpa using h
    · cases hL
      simp at hk

/-- When every fallible step succeeds, `gather_available_hours` is the slot
loop started at the working window's start on the queried day. -/
theorem gather_available_hours_eq (fuel : Nat) (B : Int) (svc : String)
    (sch : ScheduleRow) (ss : StaffScheduleRow) (bks : List BookingRow)
    (off : Int) (bk : List Int) (startS endS : Int)
    (hoff : find_offset_by_id ss.timeZone = some off)
    (hbk : bks.mapM (fun b => parseBookDate b.bookDate) = some bk)
    (hst : parseHMS (stripDot0 ss.start) = some startS)
    (hen : parseHMS (stripDot0 ss.endT) = some endS) :
    gather_available_hours fuel B svc sch ss bks =
      hoursLoop bk (sch.duration * 60) (sch.breakMin * 60) endS
        ⟨svc, sch.id, ss.staff, ss.id⟩ fuel (B * 86400 + startS) := by
  unfold gather_available_hours
  rw [hoff, hbk, hst, hen]
  rfl

/-! ## Fixtures for the slot-generator claims -/

/-- Fixture schedule: 60-minute slots with no break. -/
def wSchedule60 : ScheduleRow :=
  { id := "sch1", service := "svc1", duration := 60, breakMin := 0 }

/-- Fixture staff schedule: two-hour window `10:00–12:00`, Los Angeles. -/
def wStaffTwoLA : StaffScheduleRow :=
  { wStaffLA with endT := "12:00:00" }

/-- A booking at the shared boundary `11:00` of the two fixture slots
(stored in the UTC-offset text form the source itself parses). -/
def wBoundary : BookingRow :=
  { bookDate := "2024-12-02 11:00:00.0 +00:00:00" }

/-- First fixture slot (free): wall `2024-12-02 10:00` – `11:00`. -/
def wSlotA : FoundHour :=
  { start := ⟨1733133600, 0⟩, endDT := ⟨1733137200, 0⟩, isBooked := false
    serviceId := "svc1", scheduleId := "sch1", staffId := "stf1"
    staffScheduleId := "st1" }

/-- Second fixture slot (free): wall `2024-12-02 11:00` – `12:00`. -/
def wSlotB : FoundHour :=
  { start := ⟨1733137200, 0⟩, endDT := ⟨1733140800, 0⟩, isBooked := false
    serviceId := "svc1", scheduleId := "sch1", staffId := "stf1"
    staffScheduleId := "st1" }

/-! ## Claim theorems: the Slot Generator -/

/-- C6 counterexample: in the Los Angeles fixture the first emitted slot's
`start` is the cursor's wall reading relabelled UTC
(`replace_offset`), and its absolute instant differs from the cursor's — the
cursor converted to UTC (`to_offset`) is a different `OffsetDateTime`, so the
emitted instants do not denote the same absolute points in time as the cursor
re-expressed in UTC. -/
theorem c6_counterexample :
    ((gather_available_hours 5 20059 "svc1" wSchedule60 wStaffTwoLA []).map
        fun L => L.head?.map (·.start)) = some (some ⟨1733133600, 0⟩) ∧
    ODT.toOffset ⟨1733133600, -28800⟩ 0 ≠ ODT.mk 1733133600 0 ∧
    (ODT.mk 1733133600 0).instant ≠ (ODT.mk 1733133600 (-28800)).instant := by
  refine ⟨by decide, by decide, by decide⟩

/-- C6 (amended): every emitted slot's `start`/`end` keep the wall-clock
readings of the cursor instants `cursor` and `cursor + duration` but merely
relabel the offset as UTC (`replace_offset`, not a conversion): replacing the
emitted start's offset with the schedule's local offset recovers the cursor
exactly, and the emitted absolute instant differs from the cursor's by the
local offset (they coincide only when the offset is zero). -/
theorem c6_slot_utc_relabel (fuel : Nat) (B : Int) (svc : String)
    (sch : ScheduleRow) (ss : StaffScheduleRow) (bks : List BookingRow)
    (off : Int) (bk : List Int) (startS endS : Int) (L : List FoundHour)
    (hoff : find_offset_by_id ss.timeZone = some off)
    (hbk : bks.mapM (fun b => parseBookDate b.bookDate) = some bk)
    (hst : parseHMS (stripDot0 ss.start) = some startS)
    (hen : parseHMS (stripDot0 ss.endT) = some endS)
    (hg : gather_available_hours fuel B svc sch ss bks = some L)
    (k : Nat) (hk : k < L.length) :
    (L.get ⟨k, hk⟩).start =
      ODT.replaceOffset
        ⟨B * 86400 + startS +
          (sch.duration * 60 + sch.breakMin * 60) * (k : Int), off⟩ 0 ∧
    (L.get ⟨k, hk⟩).endDT =
      ODT.replaceOffset
        ⟨B * 86400 + startS +
          (sch.duration * 60 + sch.breakMin * 60) * (k : Int) +
            sch.duration * 60, off⟩ 0 ∧
    ODT.replaceOffset (L.get ⟨k, hk⟩).start off =
      ⟨B * 86400 + startS +
        (sch.duration * 60 + sch.breakMin * 60) * (k : Int), off⟩ ∧
    (L.get ⟨k, hk⟩).start.instant =
      (ODT.mk (B * 86400 + startS +
        (sch.duration * 60 + sch.breakMin * 60) * (k : Int)) off).instant +
        off := by
  rw [gather_available_hours_eq fuel B svc sch ss bks off bk startS endS hoff
    hbk hst hen] at hg
  have h := hoursLoop_get bk (sch.duration * 60) (sch.breakMin * 60) endS
    ⟨svc, sch.id, ss.staff, ss.id⟩ fuel (B * 86400 + startS) L hg k hk
  rw [h]
  refine ⟨?_, ?_, ?_, ?_⟩
  · simp only [mkFoundHour, ODT.replaceOffset]
  · simp only [mkFoundHour, ODT.replaceOffset]
  · simp only [mkFoundHour, ODT.replaceOffset]
  · simp only [mkFoundHour, ODT.instant]
    ring

/-- Witness for C6 at the Los Angeles fixture: the loop completes with two
slots, and the first slot satisfies the amended relabelling property at
offset `-28800`. -/
theorem c6_slot_utc_relabel_witness :
    gather_available_hours 5 20059 "svc1" wSchedule60 wStaffTwoLA [] =
      some [wSlotA, wSlotB] ∧
    wSlotA.start = ODT.replaceOffset ⟨1733133600, -28800⟩ 0 ∧
    ODT.replaceOffset wSlotA.start (-28800) = ⟨1733133600, -28800⟩ ∧
    wSlotA.start.instant =
      (ODT.mk 1733133600 (-28800)).instant + (-28800) := by
  have hgv : gather_available_hours 5 20059 "svc1" wSchedule60 wStaffTwoLA []
      = some [wSlotA, wSlotB] := by decide
  have h := c6_slot_utc_relabel 5 20059 "svc1" wSchedule60 wStaffTwoLA []
    (-28800) [] 36000 43200 [wSlotA, wSlotB] (by decide) (by decide)
    (by decide) (by decide) hgv 0 (by decide)
  norm_num [wSchedule60] at h
  exact ⟨hgv, h.1, h.2.2.1, h.2.2.2⟩

/-- C10: with a zero break, a booked instant exactly at the shared boundary
of two consecutive emitted slots (the first slot's end wall reading, equal to
the second slot's start) makes the inclusive `[cursor, cursor+duration]`
comparison flag *both* slots as booked. -/
theorem c10_boundary_flags_both (fuel : Nat) (B : Int) (svc : String)
    (sch : ScheduleRow) (ss : StaffScheduleRow) (bks : List BookingRow)
    (off : Int) (bk : List Int) (startS endS : Int) (L : List FoundHour)
    (hoff : find_offset_by_id ss.timeZone = some off)
    (hbk : bks.mapM (fun b => parseBookDate b.bookDate) = some bk)
    (hst : parseHMS (stripDot0 ss.start) = some startS)
    (hen : parseHMS (stripDot0 ss.endT) = some endS)
    (hg : gather_available_hours fuel B svc sch ss bks = some L)
    (hbrk : sch.breakMin = 0) (hdur : 0 ≤ sch.duration)
    (k : Nat) (hk1 : k + 1 < L.length)
    (hbd : B * 86400 + startS + sch.duration * 60 * ((k : Int) + 1) ∈ bk) :
    (L.get ⟨k, Nat.lt_of_succ_lt hk1⟩).isBooked = true ∧
    (L.get ⟨k + 1, hk1⟩).isBooked = true := by
  rw [gather_available_hours_eq fuel B svc sch ss bks off bk startS endS hoff
    hbk hst hen] at hg
  have hmul : sch.duration * 60 * (k : Int) ≤
      sch.duration * 60 * ((k : Int) + 1) := by
    have h60 : (0 : Int) ≤ sch.duration * 60 := by positivity
    nlinarith
  constructor
  · have h := hoursLoop_get bk (sch.duration * 60) (sch.breakMin * 60) endS
      ⟨svc, sch.id, ss.staff, ss.id⟩ fuel (B * 86400 + startS) L hg k
      (Nat.lt_of_succ_lt hk1)
    rw [h]
    simp only [mkFoundHour, hbrk, List.any_eq_true]
    refine ⟨B * 86400 + startS + sch.duration * 60 * ((k : Int) + 1), hbd, ?_⟩
    simp only [Bool.and_eq_true, decide_eq_true_eq]
    constructor
    · nlinarith
    · nlinarith
  · have h := hoursLoop_get bk (sch.duration * 60) (sch.breakMin * 60) endS
      ⟨svc, sch.id, ss.staff, ss.id⟩ fuel (B * 86400 + startS) L hg (k + 1)
      hk1
    rw [h]
    simp only [mkFoundHour, hbrk, List.any_eq_true]
    refine ⟨B * 86400 + startS + sch.duration * 60 * ((k : Int) + 1), hbd, ?_⟩
    simp only [Bool.and_eq_true, decide_eq_true_eq]
    push_cast
    constructor
    · nlinarith
    · nlinarith

/-- Witness for C10 at the fixture: a booking at wall `2024-12-02 11:00`
(the boundary between the `10:00–11:00` and `11:00–12:00` slots) makes both
emitted slots booked. -/
theorem c10_boundary_flags_both_witness :
    gather_available_hours 5 20059 "svc1" wSchedule60 wStaffTwoLA
        [wBoundary] =
      some [{ wSlotA with isBooked := true }, { wSlotB with isBooked := true }] ∧
    ({ wSlotA with isBooked := true } : FoundHour).isBooked = true ∧
    ({ wSlotB with isBooked := true } : FoundHour).isBooked = true := by
  have hgv : gather_available_hours 5 20059 "svc1" wSchedule60 wStaffTwoLA
      [wBoundary] = some [{ wSlotA with isBooked := true },
        { wSlotB with isBooked := true }] := by decide
  have h := c10_boundary_flags_both 5 20059 "svc1" wSchedule60 wStaffTwoLA
    [wBoundary] (-28800) [1733137200] 36000 43200
    [{ wSlotA with isBooked := true }, { wSlotB with isBooked := true }]
    (by decide) (by decide) (by decide) (by decide) hgv (by decide)
    (by decide) 0 (by decide) (by decide)
  exact ⟨hgv, h.1, h.2⟩

/-! ## Parsed-time bounds -/

theorem digitVal_nonneg (c : Char) (x : Int) (h : digitVal c = some x) :
    0 ≤ x := by
  unfold digitVal at h
  split at h
  · cases h
    positivity
  · cases h

theorem twoDigits_nonneg (a b : Char) (x : Int) (h : twoDigits a b = some x) :
    0 ≤ x := by
  unfold twoDigits at h
  cases ha : digitVal a with
  | none => rw [ha] at h; cases h
  | some xa =>
    cases hb : digitVal b with
    | none => rw [ha, hb] at h; cases h
    | some xb =>
      rw [ha, hb] at h
      cases h
      have h1 := digitVal_nonneg a xa ha
      have h2 := digitVal_nonneg b xb hb
      omega

theorem parseHMS_bounds (s : String) (t : Int) (h : parseHMS s = some t) :
    0 ≤ t ∧ t < 86400 := by
  unfold parseHMS at h
  split at h
  · rename_i a1 a2 a3 a4 a5 a6 heq
    cases hh : twoDigits a1 a2 with
    | none => rw [hh] at h; cases h
    | some hv =>
      cases hm : twoDigits a3 a4 with
      | none => rw [hh, hm] at h; cases h
      | some mv =>
        cases hs : twoDigits a5 a6 with
        | none => rw [hh, hm, hs] at h; cases h
        | some sv =>
          rw [hh, hm, hs] at h
          have h2 : (if hv ≤ 23 ∧ mv ≤ 59 ∧ sv ≤ 59 then
              some (hv * 3600 + mv * 60 + sv) else none) = some t := h
          split at h2
          · rename_i hrange
            cases h2
            have b1 := twoDigits_nonneg a1 a2 hv hh
            have b2 := twoDigits_nonneg a3 a4 mv hm
            have b3 := twoDigits_nonneg a5 a6 sv hs
            omega
          · cases h2
  · cases h

/-! ## Slot-window lemma for C5 -/

/-- `Int.emod` is the `%` of the `Int` `Mod` instance (stated for rewriting
before `omega`). -/
theorem emod_as_mod (a b : Int) : a.emod b = a % b := rfl

/-- Provided the working window plus one stride stays within the day (no
wrap around midnight), a completed run starts at `s` seconds past the queried
day's midnight and: every slot's end time of day stays within the window, and
when the stride evenly divides the window the run is nonempty and its last
slot ends at `endS - brkS` — one break short of the window end. -/
theorem hoursLoop_window (booked : List Int) (durS brkS endS : Int)
    (ids : SlotIds) (hdur : 0 < durS) (hbrk : 0 ≤ brkS)
    (hwrap : endS + (durS + brkS) < 86400) :
    ∀ (fuel : Nat) (Bq s : Int) (L : List FoundHour), 0 ≤ s → s ≤ endS →
      hoursLoop booked durS brkS endS ids fuel (Bq * 86400 + s) = some L →
      (∀ v ∈ L, v.endDT.timeOfDay ≤ endS) ∧
      ((durS + brkS) ∣ (endS - s) → s < endS → L ≠ [] ∧
        L.getLast?.map (fun v => v.endDT.timeOfDay) = some (endS - brkS)) := by
  intro fuel
  induction fuel with
  | zero =>
    intro Bq s L hs0 hse hL
    unfold hoursLoop at hL
    split at hL
    · exact absurd hL (by simp)
    · rename_i hcond
      simp only [hoursCond, decide_eq_true_eq, emod_as_mod] at hcond
      cases hL
      refine ⟨by simp, ?_⟩
      intro hdvd hlt
      exfalso
      obtain ⟨q, hq⟩ := hdvd
      have hq1 : 1 ≤ q := by nlinarith
      have hsD : s + (durS + brkS) ≤ endS := by nlinarith
      omega
  | succ n ih =>
    intro Bq s L hs0 hse hL
    unfold hoursLoop at hL
    split at hL
    · rename_i hcond
      simp only [hoursCond, decide_eq_true_eq, emod_as_mod] at hcond
      have hsD : s + durS + brkS ≤ endS := by omega
      cases hmap : hoursLoop booked durS brkS endS ids n
          (Bq * 86400 + s + durS + brkS) with
      | none => rw [hmap] at hL; cases hL
      | some L2 =>
        rw [hmap] at hL
        simp only [Option.map_some'] at hL
        cases hL
        have hmap2 : hoursLoop booked durS brkS endS ids n
            (Bq * 86400 + (s + durS + brkS)) = some L2 := by
          have harr : Bq * 86400 + (s + durS + brkS) =
              Bq * 86400 + s + durS + brkS := by ring
          rw [harr]
          exact hmap
        have hIH := ih Bq (s + durS + brkS) L2 (by omega) (by omega) hmap2
        constructor
        · intro v hv
          rcases List.mem_cons.mp hv with hv | hv
          · subst hv
            simp only [mkFoundHour, ODT.timeOfDay, emod_as_mod]
            omega
          · exact hIH.1 v hv
        · intro hdvd hlt
          obtain ⟨q, hq⟩ := hdvd
          refine ⟨by simp, ?_⟩
          cases hL2 : L2 with
          | nil =>
            have hlast := hoursLoop_cond_last booked durS brkS endS ids n
              (Bq * 86400 + (s + durS + brkS)) L2 hmap2
            rw [hL2] at hlast
            simp only [List.length_nil, Nat.cast_zero, mul_zero, add_zero,
              hoursCond, decide_eq_false_iff_not, emod_as_mod] at hlast
            have hs2D : ¬(s + 2 * (durS + brkS) ≤ endS) := by omega
            have hq2 : q < 2 := by nlinarith
            have hq1 : 1 ≤ q := by nlinarith
            have hqe : q = 1 := by omega
            subst hqe
            have hend : endS = s + (durS + brkS) := by linarith
            simp only [List.getLast?_singleton, Option.map_some',
              mkFoundHour, ODT.timeOfDay, emod_as_mod]
            congr 1
            omega
          | cons w ws =>
            have hlen : 0 < L2.length := by rw [hL2]; simp
            have hcondw := hoursLoop_cond_emitted booked durS brkS endS ids n
              (Bq * 86400 + (s + durS + brkS)) L2 hmap2 0 hlen
            simp only [Nat.cast_zero, mul_zero, add_zero, hoursCond,
              decide_eq_true_eq, emod_as_mod] at hcondw
            have hlt2 : s + durS + brkS < endS := by omega
            have hdvd2 : (durS + brkS) ∣ (endS - (s + durS + brkS)) :=
              ⟨q - 1, by linear_combination hq⟩
            have h2 := hIH.2 hdvd2 hlt2
            rw [hL2] at h2
            rw [List.getLast?_cons_cons]
            exact h2.2
    · rename_i hcond
      simp only [hoursCond, decide_eq_true_eq, emod_as_mod] at hcond
      cases hL
      refine ⟨by simp, ?_⟩
      intro hdvd hlt
      exfalso
      obtain ⟨q, hq⟩ := hdvd
      have hq1 : 1 ≤ q := by nlinarith
      have hsD : s + (durS + brkS) ≤ endS := by nlinarith
      omega

/-- Every emitted slot's whole stride (duration plus break) fits before the
window end: a slot starting inside the final partial remainder — whose
stride would overrun `endS` — is never emitted. -/
theorem hoursLoop_stride_fits (booked : List Int) (durS brkS endS : Int)
    (ids : SlotIds) (hdur : 0 < durS) (hbrk : 0 ≤ brkS)
    (hwrap : endS + (durS + brkS) < 86400) :
    ∀ (fuel : Nat) (Bq s : Int) (L : List FoundHour), 0 ≤ s → s ≤ endS →
      hoursLoop booked durS brkS endS ids fuel (Bq * 86400 + s) = some L →
      ∀ v ∈ L, v.start.timeOfDay + (durS + brkS) ≤ endS := by
  intro fuel
  induction fuel with
  | zero =>
    intro Bq s L hs0 hse hL
    unfold hoursLoop at hL
    split at hL
    · exact absurd hL (by simp)
    · cases hL
      simp
  | succ n ih =>
    intro Bq s L hs0 hse hL
    unfold hoursLoop at hL
    split at hL
    · rename_i hcond
      simp only [hoursCond, decide_eq_true_eq, emod_as_mod] at hcond
      cases hmap : hoursLoop booked durS brkS endS ids n
          (Bq * 86400 + s + durS + brkS) with
      | none => rw [hmap] at hL; cases hL
      | some L2 =>
        rw [hmap] at hL
        simp only [Option.map_some'] at hL
        cases hL
        have hmap2 : hoursLoop booked durS brkS endS ids n
            (Bq * 86400 + (s + durS + brkS)) = some L2 := by
          have harr : Bq * 86400 + (s + durS + brkS) =
              Bq * 86400 + s + durS + brkS := by ring
          rw [harr]
          exact hmap
        intro v hv
        rcases List.mem_cons.mp hv with hv | hv
        · subst hv
          simp only [mkFoundHour, ODT.timeOfDay, emod_as_mod]
          omega
        · exact ih Bq (s + durS + brkS) L2 (by omega) (by omega) hmap2 v hv
    · cases hL
      simp

/-- A completed run emits exactly the number of whole strides that fit in
the window: `L.length` whole strides fit in `[s, endS]` and one more does
not, so `L.length = ⌊(endS - s) / (durS + brkS)⌋` and the final partial
remainder produces no slot. -/
theorem hoursLoop_stride_count (booked : List Int) (durS brkS endS : Int)
    (ids : SlotIds) (hdur : 0 < durS) (hbrk : 0 ≤ brkS)
    (hwrap : endS + (durS + brkS) < 86400) :
    ∀ (fuel : Nat) (Bq s : Int) (L : List FoundHour), 0 ≤ s → s ≤ endS →
      hoursLoop booked durS brkS endS ids fuel (Bq * 86400 + s) = some L →
      (L.length : Int) * (durS + brkS) ≤ endS - s ∧
      endS - s < ((L.length : Int) + 1) * (durS + brkS) := by
  intro fuel
  induction fuel with
  | zero =>
    intro Bq s L hs0 hse hL
    unfold hoursLoop at hL
    split at hL
    · exact absurd hL (by simp)
    · rename_i hcond
      simp only [hoursCond, decide_eq_true_eq, emod_as_mod] at hcond
      cases hL
      constructor
      · simp
        omega
      · simp
        omega
  | succ n ih =>
    intro Bq s L hs0 hse hL
    unfold hoursLoop at hL
    split at hL
    · rename_i hcond
      simp only [hoursCond, decide_eq_true_eq, emod_as_mod] at hcond
      cases hmap : hoursLoop booked durS brkS endS ids n
          (Bq * 86400 + s + durS + brkS) with
      | none => rw [hmap] at hL; cases hL
      | some L2 =>
        rw [hmap] at hL
        simp only [Option.map_some'] at hL
        cases hL
        have hmap2 : hoursLoop booked durS brkS endS ids n
            (Bq * 86400 + (s + durS + brkS)) = some L2 := by
          have harr : Bq * 86400 + (s + durS + brkS) =
              Bq * 86400 + s + durS + brkS := by ring
          rw [harr]
          exact hmap
        obtain ⟨hc1, hc2⟩ := ih Bq (s + durS + brkS) L2 (by omega) (by omega)
          hmap2
        constructor
        · simp only [List.length_cons]
          push_cast
          have hex : ((L2.length : Int) + 1) * (durS + brkS) =
              (L2.length : Int) * (durS + brkS) + (durS + brkS) := by ring
          rw [hex]
          linarith
        · simp only [List.length_cons]
          push_cast
          have hex : ((L2.length : Int) + 1 + 1) * (durS + brkS) =
              ((L2.length : Int) * (durS + brkS) + (durS + brkS)) +
                (durS + brkS) := by ring
          rw [hex]
          have hex2 : ((L2.length : Int) + 1) * (durS + brkS) =
              (L2.length : Int) * (durS + brkS) + (durS + brkS) := by ring
          rw [hex2] at hc2
          linarith
    · rename_i hcond
      simp only [hoursCond, decide_eq_true_eq, emod_as_mod] at hcond
      cases hL
      constructor
      · simp
        omega
      · simp
        omega

/-- C5 counterexample: in the spec's own scenario (window `10:00–18:00`,
duration 45, break 15) the stride `60` minutes evenly divides the 8-hour
window, yet the last emitted slot ends at `17:45` (63900 seconds), not at the
window end `18:00` (64800 seconds). -/
theorem c5_counterexample :
    parseHMS (stripDot0 wStaffUTC.endT) = some 64800 ∧
    ((gather_available_hours 20 20059 "svc1" wSchedule wStaffUTC []).map
        fun L => L.getLast?.map fun v => v.endDT.timeOfDay) =
      some (some 63900) ∧
    (64800 - 36000 : Int) =
      (wSchedule.duration * 60 + wSchedule.breakMin * 60) * 8 ∧
    (63900 : Int) ≠ 64800 := by
  refine ⟨by decide, by decide, by decide, by decide⟩

/-- C5 (amended): for positive duration, nonnegative break, a working window
inside one day with room for one stride past its end
(`endTime + duration + break < 24h`): when `duration + break` evenly divides
`endTime - startTime` the slot list is nonempty and its last slot ends at
`endTime - breakMinutes` (which equals `endTime` exactly when the break is
zero); the final partial remainder produces no slot — every emitted slot's
whole stride fits before `endTime`, and the number of emitted slots is
exactly the number of whole strides that fit in the window
(`n·stride ≤ endTime - startTime < (n+1)·stride`, i.e. the floor), so no
slot is emitted inside the remainder; and no emitted slot's end time of day
extends past `endTime`. -/
theorem c5_slot_window_end (fuel : Nat) (B : Int) (svc : String)
    (sch : ScheduleRow) (ss : StaffScheduleRow) (bks : List BookingRow)
    (off : Int) (bk : List Int) (startS endS : Int) (L : List FoundHour)
    (hoff : find_offset_by_id ss.timeZone = some off)
    (hbk : bks.mapM (fun b => parseBookDate b.bookDate) = some bk)
    (hst : parseHMS (stripDot0 ss.start) = some startS)
    (hen : parseHMS (stripDot0 ss.endT) = some endS)
    (hg : gather_available_hours fuel B svc sch ss bks = some L)
    (hdur : 0 < sch.duration) (hbrkm : 0 ≤ sch.breakMin)
    (hwrap : endS + (sch.duration * 60 + sch.breakMin * 60) < 86400)
    (hse : startS ≤ endS) :
    (∀ v ∈ L, v.endDT.timeOfDay ≤ endS) ∧
    (∀ v ∈ L, v.start.timeOfDay +
      (sch.duration * 60 + sch.breakMin * 60) ≤ endS) ∧
    (L.length : Int) * (sch.duration * 60 + sch.breakMin * 60) ≤
      endS - startS ∧
    endS - startS <
      ((L.length : Int) + 1) * (sch.duration * 60 + sch.breakMin * 60) ∧
    ((sch.duration * 60 + sch.breakMin * 60) ∣ (endS - startS) →
      startS < endS →
      L ≠ [] ∧ L.getLast?.map (fun v => v.endDT.timeOfDay) =
        some (endS - sch.breakMin * 60)) := by
  rw [gather_available_hours_eq fuel B svc sch ss bks off bk startS endS hoff
    hbk hst hen] at hg
  have hb := parseHMS_bounds _ _ hst
  have hw := hoursLoop_window bk (sch.duration * 60) (sch.breakMin * 60) endS
    ⟨svc, sch.id, ss.staff, ss.id⟩ (by omega) (by omega) hwrap fuel B startS L
    hb.1 hse hg
  have hfits := hoursLoop_stride_fits bk (sch.duration * 60)
    (sch.breakMin * 60) endS ⟨svc, sch.id, ss.staff, ss.id⟩ (by omega)
    (by omega) hwrap fuel B startS L hb.1 hse hg
  have hcount := hoursLoop_stride_count bk (sch.duration * 60)
    (sch.breakMin * 60) endS ⟨svc, sch.id, ss.staff, ss.id⟩ (by omega)
    (by omega) hwrap fuel B startS L hb.1 hse hg
  exact ⟨hw.1, hfits, hcount.1, hcount.2, hw.2⟩

/-- Witness for C5 at the two-slot fixture (window `10:00–12:00`, duration
60, break 0): the stride divides the window, the run is nonempty, the last
slot ends exactly at the window end `12:00`, every slot ends within the
window with its whole stride fitting, and the slot count is exactly the two
whole strides that fit. -/
theorem c5_slot_window_end_witness :
    gather_available_hours 5 20059 "svc1" wSchedule60 wStaffTwoLA [] =
      some [wSlotA, wSlotB] ∧
    ([wSlotA, wSlotB] : List FoundHour).getLast?.map
      (fun v => v.endDT.timeOfDay) = some 43200 ∧
    wSlotB.endDT.timeOfDay ≤ 43200 ∧
    (∀ v ∈ ([wSlotA, wSlotB] : List FoundHour),
      v.start.timeOfDay + 3600 ≤ 43200) ∧
    (([wSlotA, wSlotB] : List FoundHour).length : Int) * 3600 ≤
      43200 - 36000 ∧
    (43200 - 36000 : Int) <
      ((([wSlotA, wSlotB] : List FoundHour).length : Int) + 1) * 3600 := by
  have hgv : gather_available_hours 5 20059 "svc1" wSchedule60 wStaffTwoLA []
      = some [wSlotA, wSlotB] := by decide
  have h := c5_slot_window_end 5 20059 "svc1" wSchedule60 wStaffTwoLA []
    (-28800) [] 36000 43200 [wSlotA, wSlotB] (by decide) (by decide)
    (by decide) (by decide) hgv (by decide) (by decide) (by decide)
    (by decide)
  have h5 := h.2.2.2.2 ⟨2, by decide⟩ (by decide)
  refine ⟨hgv, ?_, ?_, ?_, ?_, ?_⟩
  · simpa using h5.2
  · exact h.1 wSlotB (by simp)
  · intro v hv
    have h2 := h.2.1 v hv
    norm_num [wSchedule60] at h2
    exact h2
  · norm_num
  · norm_num

/-! ## Begin-handler structural lemmas -/

theorem ltLookup_ltInsert (t : LockTable) (k : LockKey) (v : String) :
    ltLookup (ltInsert t k v) k = some v := by
  simp [ltLookup, ltInsert, List.find?]

theorem ltContains_ltInsert (t : LockTable) (k : LockKey) (v : String) :
    ltContains (ltInsert t k v) k = true := by
  simp [ltContains, ltLookup_ltInsert]

/-- A successful `begin` inserted its client key under a previously absent
key. -/
theorem post_form_process_before_ok (env : BeginEnv) (proc : LockTable)
    (q : FormProcessQuery) (fuel : Nat)
    (h : (post_form_process_before env proc q fuel).2 = none) :
    (post_form_process_before env proc q fuel).1 =
      ltInsert proc (keyOf q) q.clientKey ∧
    ltContains proc (keyOf q) = false := by
  by_cases h1 : env.schedule.service = q.serviceId
  · by_cases h2 : env.staffSchedule.schedule = q.scheduleId
    · by_cases h3 : env.staffSchedule.staff = q.staffId
      · cases h4 : ltContains proc (keyOf q) with
        | true => simp [post_form_process_before, h1, h2, h3, h4] at h
        | false =>
          cases hB : mkDateDays q.year q.month q.day with
          | none => simp [post_form_process_before, h1, h2, h3, h4, hB] at h
          | some B =>
            cases hg : gather_available_hours fuel B q.serviceId
                env.schedule env.staffSchedule env.bookings with
            | none =>
              simp [post_form_process_before, h1, h2, h3, h4, hB, hg] at h
            | some hours =>
              cases ht : parseHMS q.time with
              | none =>
                simp [post_form_process_before, h1, h2, h3, h4, hB, hg,
                  ht] at h
              | some t =>
                cases hf : hours.find? fun v => v.start.timeOfDay == t with
                | none =>
                  simp [post_form_process_before, h1, h2, h3, h4, hB, hg,
                    ht, hf] at h
                | some v =>
                  cases hbk : v.isBooked with
                  | true =>
                    simp [post_form_process_before, h1, h2, h3, h4, hB,
                      hg, ht, hf, hbk] at h
                  | false =>
                    refine ⟨?_, rfl⟩
                    simp [post_form_process_before, h1, h2, h3, h4, hB,
                      hg, ht, hf, hbk]
      · simp [post_form_process_before, h1, h2, h3] at h
    · simp [post_form_process_before, h1, h2] at h
  · simp [post_form_process_before, h1] at h

/-- A `begin` whose referential checks pass but whose key is already held
fails with the in-flight conflict error and leaves the table unchanged. -/
theorem post_form_process_before_conflict (env : BeginEnv) (proc : LockTable)
    (q : FormProcessQuery) (fuel : Nat)
    (h1 : env.schedule.service = q.serviceId)
    (h2 : env.staffSchedule.schedule = q.scheduleId)
    (h3 : env.staffSchedule.staff = q.staffId)
    (h4 : ltContains proc (keyOf q) = true) :
    post_form_process_before env proc q fuel =
      (proc, some .alreadyProcessing) := by
  simp [post_form_process_before, h1, h2, h3, h4]

/-! ## Claim theorems: the reservation protocol -/

/-- C1 counterexample: the claim's list of validations omits the staff
check — here the schedule's `service` matches, the staff schedule's
`schedule` matches, the key is free, the requested time `10:00:00` is the
start of a generated slot and that slot is free, yet `begin` fails (with the
staff-mismatch error) and inserts nothing, because the staff schedule's
`staff` field differs from the supplied staff id. -/
theorem c1_counterexample :
    post_form_process_before wEnv [] { wQuery with staffId := "other" } 20 =
      ([], some .staffMismatch) ∧
    wEnv.schedule.service =
      ({ wQuery with staffId := "other" } : FormProcessQuery).serviceId ∧
    wEnv.staffSchedule.schedule =
      ({ wQuery with staffId := "other" } : FormProcessQuery).scheduleId ∧
    ltContains [] (keyOf { wQuery with staffId := "other" }) = false ∧
    mkDateDays 2024 12 2 = some 20059 ∧
    parseHMS "10:00:00" = some 36000 ∧
    ((gather_available_hours 20 20059 "svc1" wSchedule wStaffUTC []).map
        fun hours =>
          (hours.find? fun v => v.start.timeOfDay == 36000).map
            (·.isBooked)) = some (some false) := by
  refine ⟨by decide, by decide, by decide, by decide, by decide, by decide,
    by decide⟩

/-- C1 (amended): provided the queried date is valid, the slot list for the
day is computable and the requested time parses, a `begin` call succeeds iff
the schedule's `service` equals the supplied service id, the staff schedule's
`schedule` equals the supplied schedule id, **the staff schedule's `staff`
equals the supplied staff id**, the key is not already held, and the
requested time is the start time of a generated slot whose `isBooked` is
false; on success the table gains exactly the key mapped to the client token,
and on any failure the table is unchanged. -/
theorem c1_begin_insert_iff (env : BeginEnv) (proc : LockTable)
    (q : FormProcessQuery) (fuel : Nat) (B t : Int) (hours : List FoundHour)
    (hB : mkDateDays q.year q.month q.day = some B)
    (hg : gather_available_hours fuel B env.schedule.service env.schedule
      env.staffSchedule env.bookings = some hours)
    (ht : parseHMS q.time = some t) :
    ((post_form_process_before env proc q fuel).2 = none ↔
      (env.schedule.service = q.serviceId ∧
       env.staffSchedule.schedule = q.scheduleId ∧
       env.staffSchedule.staff = q.staffId ∧
       ltContains proc (keyOf q) = false ∧
       ∃ v, (hours.find? fun v => v.start.timeOfDay == t) = some v ∧
         v.isBooked = false)) ∧
    ((post_form_process_before env proc q fuel).2 = none →
      (post_form_process_before env proc q fuel).1 =
        ltInsert proc (keyOf q) q.clientKey) ∧
    ((post_form_process_before env proc q fuel).2 ≠ none →
      (post_form_process_before env proc q fuel).1 = proc) := by
  by_cases h1 : env.schedule.service = q.serviceId
  · rw [h1] at hg
    by_cases h2 : env.staffSchedule.schedule = q.scheduleId
    · by_cases h3 : env.staffSchedule.staff = q.staffId
      · cases h4 : ltContains proc (keyOf q) with
        | true => simp [post_form_process_before, h1, h2, h3, h4]
        | false =>
          cases hf : hours.find? fun v => v.start.timeOfDay == t with
          | none =>
            simp [post_form_process_before, h1, h2, h3, h4, hB, hg, ht, hf]
          | some v =>
            cases hbk : v.isBooked with
            | true =>
              simp [post_form_process_before, h1, h2, h3, h4, hB, hg, ht,
                hf, hbk]
            | false =>
              simp [post_form_process_before, h1, h2, h3, h4, hB, hg, ht,
                hf, hbk]
      · simp [post_form_process_before, h1, h2, h3]
    · simp [post_form_process_before, h1, h2]
  · simp [post_form_process_before, h1]

/-- Witness for C1 at the two-slot fixture: all validations hold, `begin`
succeeds and stores the client token under the key. -/
theorem c1_begin_insert_iff_witness :
    (post_form_process_before
      { schedule := wSchedule60, staffSchedule := wStaffTwoLA, bookings := [] }
      [] wQuery 20).2 = none ∧
    (post_form_process_before
      { schedule := wSchedule60, staffSchedule := wStaffTwoLA, bookings := [] }
      [] wQuery 20).1 = ltInsert [] (keyOf wQuery) "ck" := by
  have h := c1_begin_insert_iff
    { schedule := wSchedule60, staffSchedule := wStaffTwoLA, bookings := [] }
    [] wQuery 20 20059 36000 [wSlotA, wSlotB] (by decide) (by decide)
    (by decide)
  have hok : (post_form_process_before
      { schedule := wSchedule60, staffSchedule := wStaffTwoLA, bookings := [] }
      [] wQuery 20).2 = none :=
    h.1.mpr ⟨by decide, by decide, by decide, by decide, wSlotA, by decide,
      by decide⟩
  exact ⟨hok, h.2.1 hok⟩

/-- C2: the mutex around `PROCESSING_FORMS` serializes concurrent `begin`
calls, so two concurrent calls for the same key are the two sequential
executions in some order: whenever the first succeeds (storing its token as
the key's sole holder), the second — with passing referential checks and the
same key — fails with the in-flight conflict error and changes nothing, so
exactly one of the two succeeds and at most one holder exists. -/
theorem c2_begin_mutual_exclusion (env1 env2 : BeginEnv) (proc : LockTable)
    (q1 q2 : FormProcessQuery) (fuel1 fuel2 : Nat)
    (h1 : (post_form_process_before env1 proc q1 fuel1).2 = none)
    (hsvc : env2.schedule.service = q2.serviceId)
    (hsch : env2.staffSchedule.schedule = q2.scheduleId)
    (hstf : env2.staffSchedule.staff = q2.staffId)
    (hkey : keyOf q2 = keyOf q1) :
    (post_form_process_before env1 proc q1 fuel1).1 =
      ltInsert proc (keyOf q1) q1.clientKey ∧
    ltLookup (post_form_process_before env1 proc q1 fuel1).1 (keyOf q1) =
      some q1.clientKey ∧
    post_form_process_before env2
        (post_form_process_before env1 proc q1 fuel1).1 q2 fuel2 =
      ((post_form_process_before env1 proc q1 fuel1).1,
        some .alreadyProcessing) := by
  obtain ⟨hins, _⟩ := post_form_process_before_ok env1 proc q1 fuel1 h1
  refine ⟨hins, ?_, ?_⟩
  · rw [hins]
    exact ltLookup_ltInsert proc (keyOf q1) q1.clientKey
  · rw [hins]
    apply post_form_process_before_conflict env2 _ q2 fuel2 hsvc hsch hstf
    rw [hkey]
    exact ltContains_ltInsert proc (keyOf q1) q1.clientKey

/-- Witness for C2 at the two-slot fixture: the first `begin` succeeds and
the identical second `begin` hits the conflict error with the table
unchanged. -/
theorem c2_begin_mutual_exclusion_witness :
    (post_form_process_before
      { schedule := wSchedule60, staffSchedule := wStaffTwoLA, bookings := [] }
      [] wQuery 20).2 = none ∧
    post_form_process_before
        { schedule := wSchedule60, staffSchedule := wStaffTwoLA,
          bookings := [] }
        (post_form_process_before
          { schedule := wSchedule60, staffSchedule := wStaffTwoLA,
            bookings := [] } [] wQuery 20).1 wQuery 20 =
      ((post_form_process_before
        { schedule := wSchedule60, staffSchedule := wStaffTwoLA,
          bookings := [] } [] wQuery 20).1, some .alreadyProcessing) := by
  have h1 : (post_form_process_before
      { schedule := wSchedule60, staffSchedule := wStaffTwoLA, bookings := [] }
      [] wQuery 20).2 = none := by decide
  have h := c2_begin_mutual_exclusion
    { schedule := wSchedule60, staffSchedule := wStaffTwoLA, bookings := [] }
    { schedule := wSchedule60, staffSchedule := wStaffTwoLA, bookings := [] }
    [] wQuery wQuery 20 20 h1 (by decide) (by decide) (by decide) rfl
  exact ⟨h1, h.2.2⟩

/-- C7 (code bug): the full round trip at the two-slot fixture.  The `10:00`
slot is reported free; `begin` then `commit` with matching identifiers and
token succeed and write a booking row — but its `bookDate` is formatted as
`2024-12-02T10:00:00.0` (ISO `T` separator, `Display` fraction, no offset),
which (i) falls **outside** the textual day window
`[2024-12-02 00:00:00.0 +00:00:00, 2024-12-02 23:59:59.0 +00:00:00]` the
bookings query uses (`T` sorts above the space), so a re-query returns no
rows and the slot is still reported free, and (ii) cannot even be parsed by
the source's own `bookDate` parser, so a day whose query did include such a
row would fail outright.  The claim's `isBooked = true` outcome is therefore
unreachable. -/
theorem c7_round_trip_code_bug :
    ((gather_available_hours 20 20059 "svc1" wSchedule60 wStaffTwoLA []).map
        fun L => L.head?.map (·.isBooked)) = some (some false) ∧
    (post_form_process_before
      { schedule := wSchedule60, staffSchedule := wStaffTwoLA, bookings := [] }
      [] wQuery 20).2 = none ∧
    post_form_process_after wSchedule60
        (post_form_process_before
          { schedule := wSchedule60, staffSchedule := wStaffTwoLA,
            bookings := [] } [] wQuery 20).1 wQuery "cu" "su" =
      ([], some
        { bookDate := "2024-12-02T10:00:00.0", bookID := 1733133600
          duration := 60, service := "svc1", staffMember := "stf1"
          contactUuid := "cu", schemaDataUuid := "su" }, none) ∧
    inDayWindow 2024 12 2 "2024-12-02T10:00:00.0" = false ∧
    parseBookDate "2024-12-02T10:00:00.0" = none ∧
    gather_available_hours 20 20059 "svc1" wSchedule60 wStaffTwoLA
      [{ bookDate := "2024-12-02T10:00:00.0" }] = none := by
  refine ⟨by decide, by decide, by decide, by decide, by decide, by decide⟩

/-- C9: `post_form_process_error` (abort) is total — the handler has no
failing path, so both of two successive aborts on the same key "return
success" — the first removes any matching lock entry, the second is a no-op,
and after either call the key is absent from the lock table. -/
theorem c9_abort_idempotent (proc : LockTable) (q : FormProcessQuery) :
    ltLookup (post_form_process_error proc q) (keyOf q) = none ∧
    post_form_process_error (post_form_process_error proc q) q =
      post_form_process_error proc q ∧
    ltLookup (post_form_process_error (post_form_process_error proc q) q)
      (keyOf q) = none := by
  refine ⟨ltLookup_ltRemove proc (keyOf q), ?_, ?_⟩
  · exact ltRemove_ltRemove proc (keyOf q)
  · exact ltLookup_ltRemove _ (keyOf q)

/-- C8: a commit with no pending lock entry fails with the missing-state
error and changes nothing; a commit whose stored client key differs from the
supplied one fails with the key-mismatch error, writes no booking row, and
still removes the lock entry. -/
theorem c8_commit_errors (schedule : ScheduleRow) (proc : LockTable)
    (q : FormProcessQuery) (cu su : String) :
    (ltLookup proc (keyOf q) = none →
      post_form_process_after schedule proc q cu su =
        (proc, none, some .processNotFound)) ∧
    (∀ s, ltLookup proc (keyOf q) = some s → s ≠ q.clientKey →
      post_form_process_after schedule proc q cu su =
        (ltRemove proc (keyOf q), none, some .clientKeyMismatch)) := by
  constructor
  · intro h
    simp [post_form_process_after, h]
  · intro s hs hne
    simp [post_form_process_after, hs, hne]

/-- Witness for C8 at concrete inputs: an empty table gives the missing-state
error; a table holding a different token gives the mismatch error with the
entry removed. -/
theorem c8_commit_errors_witness :
    (post_form_process_after wSchedule [] wQuery "cu" "su" =
      ([], none, some .processNotFound)) ∧
    (post_form_process_after wSchedule [(keyOf wQuery, "other")] wQuery "cu"
        "su" = ([], none, some .clientKeyMismatch)) := by
  constructor
  · exact (c8_commit_errors wSchedule [] wQuery "cu" "su").1 (by decide)
  · have h := (c8_commit_errors wSchedule [(keyOf wQuery, "other")] wQuery
      "cu" "su").2 "other" (by decide) (by decide)
    simpa [ltRemove, keyOf, wQuery] using h

/-- When every fallible step succeeds, `gather_available_days` is the
bounded walk from the anchor's UTC instant toward the lookup month. -/
theorem gather_available_days_eq (fuel : Nat) (lookupDays : Int)
    (item : StaffScheduleRow) (y m d startS endS off freq : Int)
    (hsd : parseDate item.startDay = some (y, m, d))
    (hst : parseHMS (stripDot0 item.start) = some startS)
    (hen : parseHMS (stripDot0 item.endT) = some endS)
    (hoff : find_offset_by_id item.timeZone = some off)
    (hfreq : frequency_str_to_duration item.recurrenceRule.frequency =
      some freq) :
    gather_available_days fuel lookupDays item =
      daysWalk (lookupDays * 86400) freq fuel
        (daysFromCivil y m d * 86400 + startS - off) [] := by
  unfold gather_available_days
  rw [hsd, hst, hen, hoff, hfreq]
  rfl

/-! ## Claim theorems: the Recurrence Expander -/

/-- C3 counterexample: a weekly schedule anchored 2024-11-23 23:00 in
`America/Los_Angeles` queried for December 2024 returns five occurrences, the
first of which is 2024-12-01 07:00 UTC — whose **local** calendar month is
November (11), not the target December: the walk classifies occurrences by
the month of the **UTC** reading, not the local one. -/
theorem c3_counterexample :
    find_offset_by_id wStaffNov.timeZone = some (-28800) ∧
    monthOfInstant (daysFromCivil 2024 12 1 * 86400) = 12 ∧
    ((gather_available_days 40 (daysFromCivil 2024 12 1) wStaffNov).map
        fun L => L.map fun u => monthOfInstant (u + (-28800))) =
      some [11, 12, 12, 12, 12] ∧
    (11 : Int) ≠ 12 := by
  refine ⟨by decide, by decide, by decide, by decide⟩

/-- C3 (amended): for every valid recurrence input (known frequency string,
resolvable time zone, parsable anchor fields, anchor instant within the
representable range) and every target month whose first instant is below the
representable maximum, there is a fuel bound with which the walk terminates
and returns at most 5 occurrences, each of whose **UTC** calendar month
equals the target month (the year is not compared, and the local month may
differ near month boundaries); the occurrences are strictly increasing
provided the saturation bound `MAXI` is not among them (saturating addition
at the year-9999 bound can repeat it). -/
theorem c3_recurrence_bounds (lookupDays : Int) (item : StaffScheduleRow)
    (y m d startS endS off freq : Int)
    (hsd : parseDate item.startDay = some (y, m, d))
    (hst : parseHMS (stripDot0 item.start) = some startS)
    (hen : parseHMS (stripDot0 item.endT) = some endS)
    (hoff : find_offset_by_id item.timeZone = some off)
    (hfreq : frequency_str_to_duration item.recurrenceRule.frequency =
      some freq)
    (hlo : MINI ≤ daysFromCivil y m d * 86400 + startS - off)
    (hhi : daysFromCivil y m d * 86400 + startS - off ≤ MAXI)
    (hlk : lookupDays * 86400 < MAXI) :
    ∃ (fuel : Nat) (r : List Int),
      gather_available_days fuel lookupDays item = some r ∧
      r.length ≤ 5 ∧
      (∀ u ∈ r, monthOfInstant u = monthOfInstant (lookupDays * 86400)) ∧
      (MAXI ∉ r → r.Pairwise (· < ·)) := by
  have hfpos : 0 < freq := frequency_pos _ _ hfreq
  set curr : Int := daysFromCivil y m d * 86400 + startS - off with hcurr
  set lookup : Int := lookupDays * 86400 with hlook
  refine ⟨(lookup - curr).toNat + 6, ?_⟩
  have htot := daysWalk_total lookup freq hfpos hlk
    ((lookup - curr).toNat + 6) curr [] hlo hhi (by simp) (by simp)
  obtain ⟨r, hr⟩ := Option.isSome_iff_exists.mp htot
  refine ⟨r, ?_, ?_, ?_, ?_⟩
  · rw [gather_available_days_eq _ lookupDays item y m d startS endS off freq
      hsd hst hen hoff hfreq]
    exact hr
  · exact daysWalk_length lookup freq _ curr [] r (by simp) hr
  · exact daysWalk_month lookup freq _ curr [] r (by simp) hr
  · intro hmax
    exact daysWalk_sorted lookup freq hfpos _ curr [] r hlo hhi
      List.Pairwise.nil (by simp) hr hmax

/-- Witness for C3 at the C4 fixture (weekly, anchored 2024-12-02 10:00 UTC,
queried for December 2024): the hypotheses hold concretely and the walk
terminates with a bounded, in-month, strictly increasing result. -/
theorem c3_recurrence_bounds_witness :
    ∃ (fuel : Nat) (r : List Int),
      gather_available_days fuel (daysFromCivil 2024 12 1) wStaffUTC =
        some r ∧
      r.length ≤ 5 ∧
      (∀ u ∈ r,
        monthOfInstant u = monthOfInstant (daysFromCivil 2024 12 1 * 86400)) ∧
      (MAXI ∉ r → r.Pairwise (· < ·)) := by
  exact c3_recurrence_bounds (daysFromCivil 2024 12 1) wStaffUTC
    2024 12 2 36000 64800 0 604800 (by decide) (by decide) (by decide)
    (by decide) (by decide) (by decide) (by decide) (by decide)

/-! ## Claim theorems: the recurrence walk at the C4 anchor -/

/-- C4 counterexample: for the weekly rule anchored Monday 2024-12-02 queried
for December 2024, the walk returns the four occurrences December 9, 16, 23,
30 — not the five claimed occurrences including the anchor December 2 (the
step is added before the first membership check, so the anchor is skipped). -/
theorem c4_counterexample :
    ((gather_available_days 40 (daysFromCivil 2024 12 1) wStaffUTC).map
        fun L => L.map dayOfInstant) = some [9, 16, 23, 30] ∧
    ((gather_available_days 40 (daysFromCivil 2024 12 1) wStaffUTC).map
        fun L => L.map dayOfInstant) ≠ some [2, 9, 16, 23, 30] := by
  constructor
  · decide
  · decide

/-- C4 (amended): the weekly rule anchored Monday 2024-12-02, queried for
December 2024, yields exactly the four occurrences December 9, 16, 23 and 30
of 2024 at the anchor's wall-clock time — the anchor date itself is excluded
and the 5-occurrence cap is not reached. -/
theorem c4_weekly_december :
    ((gather_available_days 40 (daysFromCivil 2024 12 1) wStaffUTC).map
        fun L =>
          L.map fun u => (yearOfInstant u, monthOfInstant u, dayOfInstant u,
            (u : Int).emod 86400)) =
      some [(2024, 12, 9, 36000), (2024, 12, 16, 36000), (2024, 12, 23, 36000),
        (2024, 12, 30, 36000)] := by
  decide

end Booking
